import Mathlib

/-!
Verification development for the query-AST sharding engine
(`pkg/querier/astmapper/shard_summer.go`): the shard-annotation codec,
the selector sharders, and the shard summer, together with a fuel-indexed
model of the generic AST node mapper they recurse through.

Go machine integers are modelled as unbounded `Int`; Go strings as Lean
`String` (a wrapped `List Char`); fallible Go functions return `Except`.
The process-wide shard counter is modelled as an event log: every
`counter.Add(x)` performed during a call is recorded as an entry `x` in
the `List Int` component of the result.
-/

/-- The reserved label referencing a cortex shard (`ShardLabel`). -/
def ShardLabel : String := "__cortex_shard__"

/-- Label matcher kinds (`labels.MatchType`). -/
inductive MatchType where
  | matchEqual
  | matchNotEqual
  | matchRegexp
  | matchNotRegexp
  deriving DecidableEq

/-- A label matcher (`labels.Matcher`): name, operator, value. -/
structure Matcher where
  type : MatchType
  name : String
  value : String
  deriving DecidableEq

/-- Aggregation operators of the query language (the subset of
`promql` item types that can head an `AggregateExpr`). -/
inductive AggOp where
  | sum
  | avg
  | min
  | max
  | count
  | stddev
  | stdvar
  | topk
  | bottomk
  | quantile
  deriving DecidableEq

/-- Position metadata of a selector (`promql.PositionRange`); its Go
zero value is `{0, 0}`. -/
structure PosRange where
  posStart : Int
  posEnd : Int
  deriving DecidableEq

/-- Query expression nodes (`promql.Node`).  `aggregate`, `vector` and
`matrix` carry exactly the fields the sharding engine reads or writes;
`binary` and `number` stand for the open "other" category that the
engine passes through; `unknown` stands for a node kind outside the
closed grammar of the node cloner. -/
inductive Node where
  | aggregate (op : AggOp) (grouping : List String) (without : Bool)
      (param : Option Node) (expr : Node)
  | vector (name : String) (offset : Int) (labelMatchers : List Matcher)
      (posRange : PosRange)
  | matrix (vectorSelector : Node) (range : Int) (endPos : Int)
  | binary (op : String) (lhs : Node) (rhs : Node)
  | number (val : Int)
  | unknown

/-- Error values produced by the engine. -/
inductive Err where
  | invalidShardLabel (input : String)
  | shardsOutOfBounds (x of : Int)
  | atoiError (input : String)
  | invalidSelectorType
  | unsupportedNode
  | squasherRequired
  | squashFailed (msg : String)
  | fuel
  deriving DecidableEq

/-! Section: Decimal formatting and parsing (Go `fmt.Sprintf("%d", ·)` and
`strconv.Atoi`) -/

/-- Numeric value of a decimal digit character. -/
def digitVal (c : Char) : Nat := c.toNat - 48

/-- The decimal digit character for a value below ten. -/
def digitChar : Nat → Char
  | 0 => '0'
  | 1 => '1'
  | 2 => '2'
  | 3 => '3'
  | 4 => '4'
  | 5 => '5'
  | 6 => '6'
  | 7 => '7'
  | 8 => '8'
  | _ => '9'

/-- Value of a digit string read left to right. -/
def digitsVal (l : List Char) : Nat :=
  l.foldl (fun a c => a * 10 + digitVal c) 0

/-- Decimal representation of a natural number, fuelled so that it is
structurally recursive; `fuel > n` always suffices. -/
def natDecimalAux : Nat → Nat → List Char → List Char
  | 0, _, acc => acc
  | fuel + 1, n, acc =>
    if n < 10 then digitChar n :: acc
    else natDecimalAux fuel (n / 10) (digitChar (n % 10) :: acc)

/-- Decimal representation of a natural number, non-padded. -/
def natDecimal (n : Nat) : List Char := natDecimalAux (n + 1) n []

/-- Decimal representation of an integer, as Go `%d` prints it. -/
def intDecimal (x : Int) : List Char :=
  if x < 0 then '-' :: natDecimal x.natAbs else natDecimal x.toNat

/-- The shard label value `fmt.Sprintf(ShardLabelFmt, x, of)`, that is
`"<x>_of_<of>"` with decimal non-padded integers. -/
def shardLabelValue (x of : Int) : String :=
  String.mk (intDecimal x ++ '_' :: 'o' :: 'f' :: '_' :: intDecimal of)

/-- Go `strconv.Atoi`: optional sign followed by at least one decimal
digit; overflow does not arise in the unbounded model. -/
def atoiChars (l : List Char) : Except Err Int :=
  match l with
  | [] => .error (.atoiError (String.mk l))
  | c :: rest =>
    if c = '-' then
      if !rest.isEmpty && rest.all Char.isDigit then
        .ok (-(digitsVal rest : Int))
      else .error (.atoiError (String.mk (c :: rest)))
    else if c = '+' then
      if !rest.isEmpty && rest.all Char.isDigit then
        .ok (digitsVal rest : Int)
      else .error (.atoiError (String.mk (c :: rest)))
    else
      if (c :: rest).all Char.isDigit then
        .ok (digitsVal (c :: rest) : Int)
      else .error (.atoiError (String.mk (c :: rest)))

/-- Whether a character list matches the anchored regular expression
`^[0-9]+_of_[0-9]+$` (`ShardLabelRE`). -/
def reList (l : List Char) : Bool :=
  match l.dropWhile Char.isDigit with
  | u1 :: c2 :: c3 :: u4 :: rest =>
    u1 == '_' && c2 == 'o' && c3 == 'f' && u4 == '_' &&
      !(l.takeWhile Char.isDigit).isEmpty && !rest.isEmpty &&
      rest.all Char.isDigit
  | _ => false

/-- `ShardLabelRE.MatchString`. -/
def shardLabelREMatch (s : String) : Bool := reList s.data

/-- Go `strings.Split` on a one-character separator. -/
def splitChars (sep : Char) : List Char → List (List Char)
  | [] => [[]]
  | c :: cs =>
    if c = sep then [] :: splitChars sep cs
    else
      match splitChars sep cs with
      | [] => [[c]]
      | l :: ls => (c :: l) :: ls

/-- A parsed shard label (`ShardAnn`). -/
structure ShardAnn where
  shard : Int
  of : Int
  deriving DecidableEq

/-- `ShardAnn.String`: encodes an annotation into a label value. -/
def ShardAnn.string (a : ShardAnn) : String :=
  shardLabelValue a.shard a.of

/-- `ParseShard`: extract the shard information encoded in the shard
label value format. -/
def ParseShard (input : String) : Except Err ShardAnn :=
  if shardLabelREMatch input = false then
    .error (.invalidShardLabel input)
  else
    match atoiChars ((splitChars '_' input.data).getD 0 []) with
    | .error e => .error e
    | .ok x =>
      match atoiChars ((splitChars '_' input.data).getD 2 []) with
      | .error e => .error e
      | .ok of =>
        if of ≤ x then .error (.shardsOutOfBounds x of)
        else .ok ⟨x, of⟩

/-- Loop body of `ShardFromMatchers`, carrying the scan index. -/
def shardFromMatchersGo (i : Nat) : List Matcher →
    Option ShardAnn × Nat × Option Err
  | [] => (none, 0, none)
  | m :: rest =>
    if m.name = ShardLabel ∧ m.type = .matchEqual then
      match ParseShard m.value with
      | .error e => (none, i, some e)
      | .ok a => (some a, i, none)
    else shardFromMatchersGo (i + 1) rest

/-- `ShardFromMatchers`: extracts a `ShardAnn` and the index it
was pulled from in the matcher list; the Go triple `(shard, idx, err)` is
modelled directly, with `nil` pointers as `none`. -/
def ShardFromMatchers (matchers : List Matcher) :
    Option ShardAnn × Nat × Option Err :=
  shardFromMatchersGo 0 matchers

/-! Section: Selector sharders -/

/-- `labels.NewMatcher`, modelling the external library constructor: it
can only fail while compiling a regular-expression matcher, and the
engine constructs equality matchers exclusively, so the model always
succeeds. -/
def NewMatcher (t : MatchType) (name value : String) : Except Err Matcher :=
  .ok ⟨t, name, value⟩

/-- `shardVectorSelector`: rebuilds a vector selector with the shard
matcher prepended; the `PosRange` of the new selector is left at its Go zero
value because the source does not copy it. -/
def shardVectorSelector (curshard shards : Int) (name : String)
    (offset : Int) (labelMatchers : List Matcher) (_posRange : PosRange) :
    Except Err Node :=
  match NewMatcher .matchEqual ShardLabel (shardLabelValue curshard shards) with
  | .error e => .error e
  | .ok shardMatcher =>
    .ok (.vector name offset (shardMatcher :: labelMatchers) ⟨0, 0⟩)

/-- `shardMatrixSelector`: valid only when the inner selector is a plain
vector selector, whose `PosRange` and the `Range` and `EndPos` of the matrix are
preserved verbatim. -/
def shardMatrixSelector (curshard shards : Int) (vectorSelector : Node)
    (range : Int) (endPos : Int) : Except Err Node :=
  match NewMatcher .matchEqual ShardLabel (shardLabelValue curshard shards) with
  | .error e => .error e
  | .ok shardMatcher =>
    match vectorSelector with
    | .vector name offset ms posRange =>
      .ok (.matrix (.vector name offset (shardMatcher :: ms) posRange)
        range endPos)
    | _ => .error .invalidSelectorType

/-! Section: Node cloner -/

/-- Modelled from the spec: the Node Cloner (`CloneNode`, §4.2), whose
implementation is not part of the given sources.  It deep-copies every
variant of the closed grammar (which, on immutable values, returns an
equal tree) and fails with an unsupported-node error for any node kind
outside the grammar; parameter expressions of aggregates are copied
verbatim. -/
def CloneNode : Node → Except Err Node
  | .aggregate op g w p e =>
    match CloneNode e with
    | .error er => .error er
    | .ok e2 => .ok (.aggregate op g w p e2)
  | .vector name off ms pr => .ok (.vector name off ms pr)
  | .matrix inner r ep =>
    match CloneNode inner with
    | .error er => .error er
    | .ok i2 => .ok (.matrix i2 r ep)
  | .binary op l r =>
    match CloneNode l with
    | .error er => .error er
    | .ok l2 =>
      match CloneNode r with
      | .error er => .error er
      | .ok r2 => .ok (.binary op l2 r2)
  | .number v => .ok (.number v)
  | .unknown => .error .unsupportedNode

/-! Section: The shard summer -/

/-- Results of a mapping operation: the `Except` outcome paired with the
log of shard-counter `Add` events performed during the call. -/
abbrev MRes (α : Type) : Type := Except Err α × List Int

/-- The `shardSummer` instance state: shard count, optional current
shard, the caller-supplied squasher, and the parallelizability
predicate (an external collaborator, carried per instance as in the
state description in §4.5 of the spec). -/
structure ShardSummer where
  shards : Int
  currentShard : Option Int
  squash : List Node → Except Err Node
  canParallelize : Node → Bool

/-- `CopyWithCurShard`: clones a shard summer with a new current shard. -/
def ShardSummer.CopyWithCurShard (s : ShardSummer) (curshard : Int) :
    ShardSummer :=
  { s with currentShard := some curshard }

/-- `NewShardSummer`: fails only when no squasher is supplied; the shard
count is never validated.  The prometheus counter registration is
external and elided; the counter itself is the event log of `MRes`. -/
def NewShardSummer (shards : Int)
    (squash : Option (List Node → Except Err Node))
    (canParallelize : Node → Bool) : Except Err ShardSummer :=
  match squash with
  | none => .error .squasherRequired
  | some sq =>
    .ok { shards := shards, currentShard := none, squash := sq,
          canParallelize := canParallelize }

/-- Grouping shape of the parent aggregate produced by `splitSum`,
following the three-way source branch on `Without` and `Grouping`. -/
def parentShape (grouping : List String) (without : Bool) :
    List String × Bool :=
  if without then ([ShardLabel], true)
  else if 0 < grouping.length then (grouping, false)
  else ([ShardLabel], true)

/-- Grouping shape of each per-shard child aggregate produced by
`splitSum` (`mkChild`), following the same three-way branch. -/
def childShape (grouping : List String) (without : Bool) :
    List String × Bool :=
  if without then (grouping, true)
  else if 0 < grouping.length then (grouping ++ [ShardLabel], false)
  else ([ShardLabel], false)

/-- The parent aggregate assembled by `splitSum`: its inner expression
is still `nil` (it is filled in by `shardSum` with the squashed legs),
so only the remaining four fields are carried. -/
structure ParentAgg where
  op : AggOp
  grouping : List String
  without : Bool
  param : Option Node

/-- The per-shard leg loop of `splitSum`: for each shard index, clone
the inner expression, map the clone through the generic mapper (`rec`)
with a shard-bound copy of the summer, and wrap the result in a child
aggregate of the given grouping shape.  `rec` stands for
`NewASTNodeMapper(summer.CopyWithCurShard(i)).Map`. -/
def mkChildren (rec : ShardSummer → Node → MRes Node) (s : ShardSummer)
    (op : AggOp) (cg : List String) (cw : Bool) (expr : Node) :
    Nat → Nat → MRes (List Node)
  | _, 0 => (.ok [], [])
  | i, r + 1 =>
    match CloneNode expr with
    | .error er => (.error er, [])
    | .ok cloned =>
      match rec (s.CopyWithCurShard (Int.ofNat i)) cloned with
      | (.error er, lg) => (.error er, lg)
      | (.ok sharded, lg) =>
        match mkChildren rec s op cg cw expr (i + 1) r with
        | (.error er, lg2) => (.error er, lg ++ lg2)
        | (.ok rest, lg2) =>
          (.ok (Node.aggregate op cg cw none sharded :: rest), lg ++ lg2)

/-- `splitSum`: forms the parent and child legs of a parallel query and,
once all legs are built, performs the single counter increment by the
shard count. -/
def splitSum (rec : ShardSummer → Node → MRes Node) (s : ShardSummer)
    (op : AggOp) (grouping : List String) (without : Bool)
    (param : Option Node) (expr : Node) : MRes (ParentAgg × List Node) :=
  let ps := parentShape grouping without
  let cs := childShape grouping without
  match mkChildren rec s op cs.1 cs.2 expr 0 s.shards.toNat with
  | (.error er, lg) => (.error er, lg)
  | (.ok children, lg) =>
    (.ok (⟨op, ps.1, ps.2, param⟩, children), lg ++ [s.shards])

/-- `shardSum`: splits a parallelizable sum, squashes the legs through
the caller-supplied squasher, and stitches the squashed legs into the
parent aggregate. -/
def shardSum (rec : ShardSummer → Node → MRes Node) (s : ShardSummer)
    (op : AggOp) (grouping : List String) (without : Bool)
    (param : Option Node) (expr : Node) : MRes Node :=
  match splitSum rec s op grouping without param expr with
  | (.error er, lg) => (.error er, lg)
  | (.ok (parent, children), lg) =>
    match s.squash children with
    | .error er => (.error er, lg)
    | .ok combined =>
      (.ok (.aggregate parent.op parent.grouping parent.without
        parent.param combined), lg)

/-- `MapNode` of the shard summer: the per-node rewrite dispatch. -/
def MapNode (rec : ShardSummer → Node → MRes Node) (s : ShardSummer) :
    Node → MRes (Node × Bool)
  | .aggregate op g w p e =>
    if s.canParallelize (.aggregate op g w p e) && (op == AggOp.sum) then
      match shardSum rec s op g w p e with
      | (.error er, lg) => (.error er, lg)
      | (.ok r, lg) => (.ok (r, true), lg)
    else (.ok (.aggregate op g w p e, false), [])
  | .vector name off ms pr =>
    match s.currentShard with
    | some cur =>
      (match shardVectorSelector cur s.shards name off ms pr with
       | .error er => (.error er, [])
       | .ok m => (.ok (m, true), []))
    | none => (.ok (.vector name off ms pr, true), [])
  | .matrix inner r ep =>
    match s.currentShard with
    | some cur =>
      (match shardMatrixSelector cur s.shards inner r ep with
       | .error er => (.error er, [])
       | .ok m => (.ok (m, true), []))
    | none => (.ok (.matrix inner r ep, true), [])
  | n => (.ok (n, false), [])

/-- Modelled from the spec: the child-recursion half of the Generic Tree
Mapper (§4.1), whose implementation is not part of the given sources.
When the rewrite function reports `done = false` the mapper recurses
into the children of the node (the inner expression of an aggregate, both
operands of a binary operation, the inner selector of a matrix
selector) and reconstructs the node with the same shape; leaves are
returned unchanged. -/
def MapChildren (rec : ShardSummer → Node → MRes Node) (s : ShardSummer) :
    Node → MRes Node
  | .aggregate op g w p e =>
    (match rec s e with
     | (.error er, lg) => (.error er, lg)
     | (.ok e2, lg) => (.ok (.aggregate op g w p e2), lg))
  | .binary op l r =>
    (match rec s l with
     | (.error er, lg) => (.error er, lg)
     | (.ok l2, lg) =>
       match rec s r with
       | (.error er, lg2) => (.error er, lg ++ lg2)
       | (.ok r2, lg2) => (.ok (.binary op l2 r2), lg ++ lg2))
  | .matrix inner r ep =>
    (match rec s inner with
     | (.error er, lg) => (.error er, lg)
     | (.ok i2, lg) => (.ok (.matrix i2 r ep), lg))
  | n => (.ok n, [])

/-- Modelled from the spec: one step of `Map` of the Generic Tree Mapper
(§4.1): apply the rewrite function; any error aborts; `done = true`
returns the rewritten node as is; `done = false` recurses into the
children. -/
def mapStep (rec : ShardSummer → Node → MRes Node) (s : ShardSummer)
    (node : Node) : MRes Node :=
  match MapNode rec s node with
  | (.error er, lg) => (.error er, lg)
  | (.ok (mapped, true), lg) => (.ok mapped, lg)
  | (.ok (mapped, false), lg) =>
    match MapChildren rec s mapped with
    | (.error er, lg2) => (.error er, lg ++ lg2)
    | (.ok r, lg2) => (.ok r, lg ++ lg2)

/-- Modelled from the spec: the function `Map` of the Generic Tree Mapper (§4.1),
fuel-indexed to model the unbounded recursion of Go; exhausting the fuel
yields the artificial `Err.fuel`, which the Go code never produces. -/
def Map : Nat → ShardSummer → Node → MRes Node
  | 0, _, _ => (.error Err.fuel, [])
  | fuel + 1, s, node => mapStep (Map fuel) s node

/-! Section: Concrete instances used by witnesses and counterexamples -/

/-- A squasher that always fails, standing for a failing combiner. -/
def failSquash : List Node → Except Err Node :=
  fun _ => .error (.squashFailed "boom")

/-- A squasher that always succeeds, wrapping the legs in a binary tree
rooted at a logical-or, in the spirit of the real vector squasher. -/
def orSquash : List Node → Except Err Node :=
  fun legs => .ok (legs.foldl (fun a l => .binary "or" a l) (.number 0))

/-- A two-shard summer whose squasher fails. -/
def exFailSummer : ShardSummer :=
  { shards := 2, currentShard := none, squash := failSquash,
    canParallelize := fun _ => true }

/-- A two-shard summer whose squasher succeeds. -/
def exOkSummer : ShardSummer :=
  { shards := 2, currentShard := none, squash := orSquash,
    canParallelize := fun _ => true }

/-- A two-shard summer whose parallelizability predicate rejects
everything. -/
def exRejectSummer : ShardSummer :=
  { shards := 2, currentShard := none, squash := orSquash,
    canParallelize := fun _ => false }

/-- A plain vector selector `foo`. -/
def exVector : Node := .vector "foo" 0 [] ⟨0, 0⟩

/-- A summer with a negative shard count. -/
def exNegSummer : ShardSummer :=
  { shards := -1, currentShard := none, squash := orSquash,
    canParallelize := fun _ => true }

/-- The first per-shard leg of `sum by (foo) (foo)` at two shards. -/
def exChildFoo0 : Node :=
  .aggregate .sum ["foo", ShardLabel] false none
    (.vector "foo" 0 [⟨.matchEqual, ShardLabel, "0_of_2"⟩] ⟨0, 0⟩)

/-- The second per-shard leg of `sum by (foo) (foo)` at two shards. -/
def exChildFoo1 : Node :=
  .aggregate .sum ["foo", ShardLabel] false none
    (.vector "foo" 0 [⟨.matchEqual, ShardLabel, "1_of_2"⟩] ⟨0, 0⟩)

/-! Section: Sanity checks -/

example : ParseShard "2_of_4" = .ok ⟨2, 4⟩ := rfl
example : ParseShard "4_of_4" = .error (.shardsOutOfBounds 4 4) := rfl
example : ParseShard "a_of_4" = .error (.invalidShardLabel "a_of_4") := rfl
example : shardLabelValue 0 2 = "0_of_2" := rfl
example : shardLabelValue 12 255 = "12_of_255" := rfl

example :
    Map 5 exOkSummer (.aggregate .sum [] false none exVector) =
      (.ok (.aggregate .sum [ShardLabel] true none
        (.binary "or"
          (.binary "or" (.number 0)
            (.aggregate .sum [ShardLabel] false none
              (.vector "foo" 0 [⟨.matchEqual, ShardLabel, "0_of_2"⟩] ⟨0, 0⟩)))
          (.aggregate .sum [ShardLabel] false none
            (.vector "foo" 0 [⟨.matchEqual, ShardLabel, "1_of_2"⟩] ⟨0, 0⟩)))),
       [2]) := rfl

example :
    Map 5 exFailSummer (.aggregate .sum [] false none exVector) =
      (.error (.squashFailed "boom"), [2]) := rfl

example :
    splitSum (Map 5) exOkSummer .sum ["foo"] false none exVector =
      (.ok (⟨.sum, ["foo"], false, none⟩, [exChildFoo0, exChildFoo1]), [2]) := rfl

/-! Section: Decimal formatting lemmas -/

theorem digitChar_isDigit (n : Nat) : (digitChar n).isDigit = true := by
  unfold digitChar
  split <;> rfl

theorem digitVal_digitChar {n : Nat} (h : n < 10) :
    digitVal (digitChar n) = n := by
  interval_cases n <;> rfl

theorem natDecimalAux_all_isDigit :
    ∀ (fuel n : Nat) (acc : List Char), acc.all Char.isDigit = true →
      (natDecimalAux fuel n acc).all Char.isDigit = true := by
  intro fuel
  induction fuel with
  | zero => intro n acc h; simpa [natDecimalAux] using h
  | succ f ih =>
    intro n acc h
    unfold natDecimalAux
    split
    · simp [digitChar_isDigit n, h]
    · exact ih _ _ (by simp [digitChar_isDigit, h])

theorem natDecimalAux_ne_nil :
    ∀ (fuel n : Nat) (acc : List Char), n < fuel →
      natDecimalAux fuel n acc ≠ [] := by
  intro fuel
  induction fuel with
  | zero => intro n acc h; omega
  | succ f ih =>
    intro n acc h
    unfold natDecimalAux
    split
    · simp
    next h10 =>
      apply ih
      have hd : n / 10 < n := Nat.div_lt_self (by omega) (by omega)
      omega

theorem natDecimalAux_foldl :
    ∀ (fuel n : Nat) (acc : List Char), n < fuel →
      (natDecimalAux fuel n acc).foldl (fun a c => a * 10 + digitVal c) 0 =
        acc.foldl (fun a c => a * 10 + digitVal c) n := by
  intro fuel
  induction fuel with
  | zero => intro n acc h; omega
  | succ f ih =>
    intro n acc h
    unfold natDecimalAux
    split
    next h10 =>
      simp [List.foldl_cons, digitVal_digitChar h10]
    next h10 =>
      have hd : n / 10 < n := Nat.div_lt_self (by omega) (by omega)
      rw [ih (n / 10) _ (by omega)]
      rw [List.foldl_cons, digitVal_digitChar (Nat.mod_lt n (by omega))]
      congr 1
      omega

theorem natDecimal_all_isDigit (n : Nat) :
    (natDecimal n).all Char.isDigit = true :=
  natDecimalAux_all_isDigit _ _ _ rfl

theorem natDecimal_ne_nil (n : Nat) : natDecimal n ≠ [] :=
  natDecimalAux_ne_nil _ _ _ (Nat.lt_succ_self n)

theorem digitsVal_natDecimal (n : Nat) : digitsVal (natDecimal n) = n := by
  unfold digitsVal natDecimal
  rw [natDecimalAux_foldl _ _ _ (Nat.lt_succ_self n)]
  rfl

theorem not_underscore_of_isDigit {c : Char} (h : c.isDigit = true) :
    c ≠ '_' := by
  rintro rfl
  exact absurd h (by decide)

theorem underscore_not_mem_natDecimal (n : Nat) : '_' ∉ natDecimal n := by
  intro hm
  have h := natDecimal_all_isDigit n
  rw [List.all_eq_true] at h
  exact absurd (h _ hm) (by decide)

theorem atoiChars_natDecimal (n : Nat) :
    atoiChars (natDecimal n) = .ok (n : Int) := by
  have hall := natDecimal_all_isDigit n
  have hne := natDecimal_ne_nil n
  have hval := digitsVal_natDecimal n
  rcases hcons : natDecimal n with _ | ⟨c, cs⟩
  · exact absurd hcons hne
  · rw [hcons] at hall hval
    have hc : c.isDigit = true := by
      rw [List.all_eq_true] at hall
      exact hall c (by simp)
    have hcm : c ≠ '-' := by rintro rfl; exact absurd hc (by decide)
    have hcp : c ≠ '+' := by rintro rfl; exact absurd hc (by decide)
    unfold atoiChars
    change (if c = '-' then _ else _) = _
    rw [if_neg hcm, if_neg hcp, if_pos hall, hval]

/-! Section: takeWhile, dropWhile and split lemmas -/

theorem takeWhile_append_all {p : Char → Bool} :
    ∀ {l r : List Char}, (∀ c ∈ l, p c = true) →
      (l ++ r).takeWhile p = l ++ r.takeWhile p := by
  intro l
  induction l with
  | nil => intro r _; rfl
  | cons a l ih =>
    intro r h
    have ha : p a = true := h a (by simp)
    simp only [List.cons_append, List.takeWhile_cons, ha, if_true]
    rw [ih (fun c hc => h c (by simp [hc]))]

theorem dropWhile_append_all {p : Char → Bool} :
    ∀ {l r : List Char}, (∀ c ∈ l, p c = true) →
      (l ++ r).dropWhile p = r.dropWhile p := by
  intro l
  induction l with
  | nil => intro r _; rfl
  | cons a l ih =>
    intro r h
    have ha : p a = true := h a (by simp)
    simp only [List.cons_append, List.dropWhile_cons, ha, if_true]
    exact ih (fun c hc => h c (by simp [hc]))

theorem reList_assembled {d1 d2 : List Char}
    (h1 : d1.all Char.isDigit = true) (h1n : d1 ≠ [])
    (h2 : d2.all Char.isDigit = true) (h2n : d2 ≠ []) :
    reList (d1 ++ '_' :: 'o' :: 'f' :: '_' :: d2) = true := by
  obtain ⟨a1, t1, rfl⟩ := List.exists_cons_of_ne_nil h1n
  obtain ⟨a2, t2, rfl⟩ := List.exists_cons_of_ne_nil h2n
  have hall1 : ∀ c ∈ a1 :: t1, Char.isDigit c = true := by
    rw [← List.all_eq_true]; exact h1
  have hdrop : ((a1 :: t1) ++ '_' :: 'o' :: 'f' :: '_' :: a2 :: t2).dropWhile
      Char.isDigit = '_' :: 'o' :: 'f' :: '_' :: a2 :: t2 := by
    rw [dropWhile_append_all hall1]
    rfl
  have htake : ((a1 :: t1) ++ '_' :: 'o' :: 'f' :: '_' :: a2 :: t2).takeWhile
      Char.isDigit = (a1 :: t1) := by
    rw [takeWhile_append_all hall1]
    simp [List.takeWhile_cons]
  unfold reList
  rw [hdrop]
  simp only [htake]
  simp [h2]

theorem splitChars_cons (sep c : Char) (cs : List Char) :
    splitChars sep (c :: cs) =
      if c = sep then [] :: splitChars sep cs
      else
        match splitChars sep cs with
        | [] => [[c]]
        | l :: ls => (c :: l) :: ls := rfl

theorem splitChars_ne_nil {sep : Char} : ∀ (l : List Char),
    splitChars sep l ≠ [] := by
  intro l
  induction l with
  | nil => simp [splitChars]
  | cons c cs ih =>
    unfold splitChars
    split
    · simp
    · match hs : splitChars sep cs with
      | [] => simp
      | l :: ls => simp

theorem splitChars_of_not_mem {sep : Char} :
    ∀ {l : List Char}, sep ∉ l → splitChars sep l = [l] := by
  intro l
  induction l with
  | nil => intro _; rfl
  | cons c cs ih =>
    intro h
    have hc : ¬(c = sep) := fun hc => h (by simp [hc])
    unfold splitChars
    rw [if_neg hc, ih (fun hm => h (by simp [hm]))]

theorem atoiChars_digits {l : List Char} (hall : l.all Char.isDigit = true)
    (hne : l ≠ []) : atoiChars l = .ok (digitsVal l : Int) := by
  obtain ⟨c, cs, rfl⟩ := List.exists_cons_of_ne_nil hne
  have hc : c.isDigit = true := by
    rw [List.all_eq_true] at hall
    exact hall c (by simp)
  have hcm : c ≠ '-' := by rintro rfl; exact absurd hc (by decide)
  have hcp : c ≠ '+' := by rintro rfl; exact absurd hc (by decide)
  unfold atoiChars
  change (if c = '-' then _ else _) = _
  rw [if_neg hcm, if_neg hcp, if_pos hall]

theorem string_data_mk (l : List Char) : (String.mk l).data = l := rfl

theorem splitChars_append_sep {sep : Char} :
    ∀ {l r : List Char}, sep ∉ l →
      splitChars sep (l ++ sep :: r) = l :: splitChars sep r := by
  intro l
  induction l with
  | nil => intro r _; simp [splitChars]
  | cons c cs ih =>
    intro r h
    have hc : ¬(c = sep) := fun hc => h (by simp [hc])
    rw [List.cons_append, splitChars_cons, if_neg hc,
      ih (fun hm => h (by simp [hm]))]

/-- Splitting the assembled shard label value on underscores yields the
two digit runs around the literal `of`. -/
theorem splitChars_assembled {d1 d2 : List Char} (h1 : '_' ∉ d1)
    (h2 : '_' ∉ d2) :
    splitChars '_' (d1 ++ '_' :: 'o' :: 'f' :: '_' :: d2) =
      [d1, ['o', 'f'], d2] := by
  rw [splitChars_append_sep h1]
  rw [show ('o' :: 'f' :: '_' :: d2 : List Char) = ['o', 'f'] ++ '_' :: d2
    from rfl]
  rw [splitChars_append_sep (by decide)]
  rw [splitChars_of_not_mem h2]

theorem not_mem_underscore_of_all_digits {l : List Char}
    (h : l.all Char.isDigit = true) : '_' ∉ l := by
  intro hm
  rw [List.all_eq_true] at h
  exact absurd (h _ hm) (by decide)

/-- Behaviour of `ParseShard` on a well-formed assembled label value. -/
theorem parseShard_assembled {d1 d2 : List Char}
    (h1 : d1.all Char.isDigit = true) (h1n : d1 ≠ [])
    (h2 : d2.all Char.isDigit = true) (h2n : d2 ≠ []) :
    ParseShard (String.mk (d1 ++ '_' :: 'o' :: 'f' :: '_' :: d2)) =
      if (digitsVal d2 : Int) ≤ (digitsVal d1 : Int) then
        .error (.shardsOutOfBounds (digitsVal d1) (digitsVal d2))
      else .ok ⟨digitsVal d1, digitsVal d2⟩ := by
  have hm : shardLabelREMatch (String.mk (d1 ++ '_' :: 'o' :: 'f' :: '_' :: d2)) = true :=
    reList_assembled h1 h1n h2 h2n
  have g0 : ([d1, ['o', 'f'], d2] : List (List Char)).getD 0 [] = d1 := rfl
  have g2 : ([d1, ['o', 'f'], d2] : List (List Char)).getD 2 [] = d2 := rfl
  unfold ParseShard
  rw [if_neg (by simp [hm])]
  simp only [string_data_mk,
    splitChars_assembled (not_mem_underscore_of_all_digits h1)
      (not_mem_underscore_of_all_digits h2),
    g0, g2, atoiChars_digits h1 h1n, atoiChars_digits h2 h2n]

/-! Section: Claim C6: encode/decode round-trip -/

/-- Claim C6: for every pair of integers with `0 ≤ shard < of`, decoding
the encoding round-trips: `ParseShard (ShardAnn.string ⟨shard, of⟩)`
returns `⟨shard, of⟩` with no error, where the encoding produces
`"<shard>_of_<of>"` with decimal non-padded integers. -/
theorem parseShard_string_roundTrip (shard of : Int) (h0 : 0 ≤ shard)
    (h1 : shard < of) :
    ParseShard (ShardAnn.string ⟨shard, of⟩) = .ok ⟨shard, of⟩ := by
  have hof : 0 ≤ of := le_trans h0 (le_of_lt h1)
  have hs : ShardAnn.string ⟨shard, of⟩ =
      String.mk (natDecimal shard.toNat ++
        '_' :: 'o' :: 'f' :: '_' :: natDecimal of.toNat) := by
    show String.mk (intDecimal shard ++ '_' :: 'o' :: 'f' :: '_' :: intDecimal of) = _
    unfold intDecimal
    rw [if_neg (by omega), if_neg (by omega)]
  rw [hs, parseShard_assembled (natDecimal_all_isDigit _) (natDecimal_ne_nil _)
    (natDecimal_all_isDigit _) (natDecimal_ne_nil _)]
  rw [digitsVal_natDecimal shard.toNat, digitsVal_natDecimal of.toNat]
  rw [Int.toNat_of_nonneg h0, Int.toNat_of_nonneg hof]
  rw [if_neg (by omega)]

/-- Witness for C6 at the concrete annotation `⟨2, 4⟩`. -/
theorem parseShard_string_roundTrip_witness :
    ParseShard (ShardAnn.string ⟨2, 4⟩) = .ok ⟨2, 4⟩ :=
  parseShard_string_roundTrip 2 4 (by decide) (by decide)

/-! Section: Claim C7: the decode grammar and its error cases -/

/-- Claim C7: `ParseShard` fails with a decode error unless the input
matches `^[0-9]+_of_[0-9]+$`; when it matches, any failure of either
half to parse propagates, and a decoded shard at least the decoded
total yields the bounds error; in particular `"2_of_4"` decodes to
`⟨2, 4⟩`, `"4_of_4"` is a bounds error and `"a_of_4"` a decode error. -/
theorem parseShard_grammar (s : String) :
    (shardLabelREMatch s = false →
      ParseShard s = .error (.invalidShardLabel s)) ∧
    (∀ e, shardLabelREMatch s = true →
      atoiChars ((splitChars '_' s.data).getD 0 []) = .error e →
      ParseShard s = .error e) ∧
    (∀ x e, shardLabelREMatch s = true →
      atoiChars ((splitChars '_' s.data).getD 0 []) = .ok x →
      atoiChars ((splitChars '_' s.data).getD 2 []) = .error e →
      ParseShard s = .error e) ∧
    (∀ x y : Int, shardLabelREMatch s = true →
      atoiChars ((splitChars '_' s.data).getD 0 []) = .ok x →
      atoiChars ((splitChars '_' s.data).getD 2 []) = .ok y →
      (y ≤ x → ParseShard s = .error (.shardsOutOfBounds x y)) ∧
      (x < y → ParseShard s = .ok ⟨x, y⟩)) ∧
    ParseShard "2_of_4" = .ok ⟨2, 4⟩ ∧
    ParseShard "4_of_4" = .error (.shardsOutOfBounds 4 4) ∧
    ParseShard "a_of_4" = .error (.invalidShardLabel "a_of_4") := by
  refine ⟨?_, ?_, ?_, ?_, rfl, rfl, rfl⟩
  · intro h
    unfold ParseShard
    rw [if_pos h]
  · intro e hm hx
    unfold ParseShard
    rw [if_neg (by simp [hm])]
    simp only [hx]
  · intro x e hm hx hy
    unfold ParseShard
    rw [if_neg (by simp [hm])]
    simp only [hx, hy]
  · intro x y hm hx hy
    constructor
    · intro hb
      unfold ParseShard
      rw [if_neg (by simp [hm])]
      simp only [hx, hy]
      rw [if_pos hb]
    · intro hb
      unfold ParseShard
      rw [if_neg (by simp [hm])]
      simp only [hx, hy]
      rw [if_neg (by omega)]

/-- Witness for C7: concrete instantiations of the implications. -/
theorem parseShard_grammar_witness :
    ParseShard "nope" = .error (.invalidShardLabel "nope") ∧
    ParseShard "3_of_9" = .ok ⟨3, 9⟩ :=
  ⟨(parseShard_grammar "nope").1 rfl,
   (((parseShard_grammar "3_of_9").2.2.2.1 3 9 rfl rfl rfl).2 (by decide))⟩

/-! Section: Claim C8: the matcher scan -/

theorem shardFromMatchersGo_cons (i : Nat) (m : Matcher)
    (rest : List Matcher) :
    shardFromMatchersGo i (m :: rest) =
      if m.name = ShardLabel ∧ m.type = .matchEqual then
        match ParseShard m.value with
        | .error e => (none, i, some e)
        | .ok a => (some a, i, none)
      else shardFromMatchersGo (i + 1) rest := rfl

theorem shardFromMatchersGo_append :
    ∀ (pre : List Matcher) (i : Nat) (rest : List Matcher),
      (∀ x ∈ pre, ¬(x.name = ShardLabel ∧ x.type = .matchEqual)) →
      shardFromMatchersGo i (pre ++ rest) =
        shardFromMatchersGo (i + pre.length) rest := by
  intro pre
  induction pre with
  | nil => intro i rest _; rfl
  | cons m pre ih =>
    intro i rest h
    have hm := h m (by simp)
    rw [List.cons_append, shardFromMatchersGo_cons, if_neg hm]
    simp only [List.length_cons]
    rw [show i + (pre.length + 1) = i + 1 + pre.length from by omega]
    exact ih _ _ (fun x hx => h x (by simp [hx]))

/-- Claim C8: `ShardFromMatchers` scans linearly and returns, for the
first equality matcher named with the reserved shard label, its decoded
annotation and its index; a decode failure of the value of that matcher
returns the decode error (with the index); with no such matcher it
returns absent (`none`), index `0`, and no error. -/
theorem shardFromMatchers_scan :
    (∀ ms : List Matcher,
      (∀ x ∈ ms, ¬(x.name = ShardLabel ∧ x.type = .matchEqual)) →
      ShardFromMatchers ms = (none, 0, none)) ∧
    (∀ (pre : List Matcher) (m : Matcher) (post : List Matcher),
      (∀ x ∈ pre, ¬(x.name = ShardLabel ∧ x.type = .matchEqual)) →
      m.name = ShardLabel → m.type = .matchEqual →
      (∀ a, ParseShard m.value = .ok a →
        ShardFromMatchers (pre ++ m :: post) = (some a, pre.length, none)) ∧
      (∀ e, ParseShard m.value = .error e →
        ShardFromMatchers (pre ++ m :: post) = (none, pre.length, some e))) := by
  constructor
  · intro ms h
    have hgo := shardFromMatchersGo_append ms 0 [] h
    rw [List.append_nil] at hgo
    unfold ShardFromMatchers
    rw [hgo]
    rfl
  · intro pre m post h hn ht
    have hgo : ShardFromMatchers (pre ++ m :: post) =
        shardFromMatchersGo (0 + pre.length) (m :: post) :=
      shardFromMatchersGo_append pre 0 (m :: post) h
    constructor
    · intro a ha
      rw [hgo, shardFromMatchersGo_cons, if_pos ⟨hn, ht⟩]
      simp only [ha]
      simp [Nat.zero_add]
    · intro e he
      rw [hgo, shardFromMatchersGo_cons, if_pos ⟨hn, ht⟩]
      simp only [he]
      simp [Nat.zero_add]

/-- Witness for C8: the shard matcher is found behind one unrelated
matcher, at index 1. -/
theorem shardFromMatchers_scan_witness :
    ShardFromMatchers [⟨.matchRegexp, "job", "x"⟩,
      ⟨.matchEqual, ShardLabel, "1_of_3"⟩] = (some ⟨1, 3⟩, 1, none) :=
  ((shardFromMatchers_scan.2 [⟨.matchRegexp, "job", "x"⟩]
    ⟨.matchEqual, ShardLabel, "1_of_3"⟩ []
    (by decide) rfl rfl).1 ⟨1, 3⟩ rfl)

/-! Section: One-step equations for the summer functions -/

theorem mkChildren_zero_eq (rec : ShardSummer → Node → MRes Node)
    (s : ShardSummer) (op : AggOp) (cg : List String) (cw : Bool)
    (expr : Node) (i : Nat) :
    mkChildren rec s op cg cw expr i 0 = (.ok [], []) := rfl

theorem mkChildren_succ_eq (rec : ShardSummer → Node → MRes Node)
    (s : ShardSummer) (op : AggOp) (cg : List String) (cw : Bool)
    (expr : Node) (i r : Nat) :
    mkChildren rec s op cg cw expr i (r + 1) =
      match CloneNode expr with
      | .error er => (.error er, [])
      | .ok cloned =>
        match rec (s.CopyWithCurShard (Int.ofNat i)) cloned with
        | (.error er, lg) => (.error er, lg)
        | (.ok sharded, lg) =>
          match mkChildren rec s op cg cw expr (i + 1) r with
          | (.error er, lg2) => (.error er, lg ++ lg2)
          | (.ok rest, lg2) =>
            (.ok (Node.aggregate op cg cw none sharded :: rest), lg ++ lg2) := rfl

theorem splitSum_eq (rec : ShardSummer → Node → MRes Node) (s : ShardSummer)
    (op : AggOp) (grouping : List String) (without : Bool)
    (param : Option Node) (expr : Node) :
    splitSum rec s op grouping without param expr =
      match mkChildren rec s op (childShape grouping without).1
          (childShape grouping without).2 expr 0 s.shards.toNat with
      | (.error er, lg) => (.error er, lg)
      | (.ok children, lg) =>
        (.ok (⟨op, (parentShape grouping without).1,
          (parentShape grouping without).2, param⟩, children),
          lg ++ [s.shards]) := rfl

theorem shardSum_eq (rec : ShardSummer → Node → MRes Node) (s : ShardSummer)
    (op : AggOp) (grouping : List String) (without : Bool)
    (param : Option Node) (expr : Node) :
    shardSum rec s op grouping without param expr =
      match splitSum rec s op grouping without param expr with
      | (.error er, lg) => (.error er, lg)
      | (.ok (parent, children), lg) =>
        match s.squash children with
        | .error er => (.error er, lg)
        | .ok combined =>
          (.ok (.aggregate parent.op parent.grouping parent.without
            parent.param combined), lg) := rfl

/-! Section: Claim C1: counter increment placement and error propagation -/

/-- Claim C1 (amended): per SPLIT call the counter is incremented by the
shard count exactly once, as the single event this call appends after
all legs are built but before the combiner runs; a cloning or recursive
mapping failure aborts without the increment and propagates unchanged;
a combiner failure aborts and propagates unchanged with no parent
returned, but the increment has already been performed. -/
theorem shardSum_counter_order (rec : ShardSummer → Node → MRes Node)
    (s : ShardSummer) (op : AggOp) (g : List String) (w : Bool)
    (p : Option Node) (e : Node) :
    (∀ e2 i r ce, CloneNode e2 = .error ce →
      mkChildren rec s op (childShape g w).1 (childShape g w).2 e2 i (r + 1) =
        (.error ce, [])) ∧
    (∀ e2 i r cl me lg, CloneNode e2 = .ok cl →
      rec (s.CopyWithCurShard (Int.ofNat i)) cl = (.error me, lg) →
      mkChildren rec s op (childShape g w).1 (childShape g w).2 e2 i (r + 1) =
        (.error me, lg)) ∧
    (∀ er lg,
      mkChildren rec s op (childShape g w).1 (childShape g w).2 e 0
        s.shards.toNat = (.error er, lg) →
      splitSum rec s op g w p e = (.error er, lg)) ∧
    (∀ children lg,
      mkChildren rec s op (childShape g w).1 (childShape g w).2 e 0
        s.shards.toNat = (.ok children, lg) →
      splitSum rec s op g w p e =
        (.ok (⟨op, (parentShape g w).1, (parentShape g w).2, p⟩, children),
          lg ++ [s.shards])) ∧
    (∀ er lg, splitSum rec s op g w p e = (.error er, lg) →
      shardSum rec s op g w p e = (.error er, lg)) ∧
    (∀ parent children lg er,
      splitSum rec s op g w p e = (.ok (parent, children), lg) →
      s.squash children = .error er →
      shardSum rec s op g w p e = (.error er, lg)) ∧
    (∀ parent children lg c,
      splitSum rec s op g w p e = (.ok (parent, children), lg) →
      s.squash children = .ok c →
      shardSum rec s op g w p e =
        (.ok (.aggregate parent.op parent.grouping parent.without
          parent.param c), lg)) := by
  refine ⟨?_, ?_, ?_, ?_, ?_, ?_, ?_⟩
  · intro e2 i r ce hc
    simp only [mkChildren_succ_eq, hc]
  · intro e2 i r cl me lg hc hr
    simp only [mkChildren_succ_eq, hc, hr]
  · intro er lg hmk
    simp only [splitSum_eq, hmk]
  · intro children lg hmk
    simp only [splitSum_eq, hmk]
  · intro er lg hsp
    simp only [shardSum_eq, hsp]
  · intro parent children lg er hsp hsq
    simp only [shardSum_eq, hsp, hsq]
  · intro parent children lg c hsp hsq
    simp only [shardSum_eq, hsp, hsq]

/-- Witness for C1 (amended), exercising the clone-failure conjunct at a
concrete input: no counter event is logged. -/
theorem shardSum_counter_order_witness :
    mkChildren (Map 5) exFailSummer .sum (childShape [] false).1
      (childShape [] false).2 .unknown 0 (0 + 1) =
      (.error .unsupportedNode, []) :=
  (shardSum_counter_order (Map 5) exFailSummer .sum [] false none
    .unknown).1 .unknown 0 0 .unsupportedNode rfl

/-- Counterexample to C1 as stated: at two shards, with a combiner that
always fails, `shardSum` propagates the combiner error and returns no
parent, yet the counter event `2` has already been logged — the
increment is not skipped when the combiner fails. -/
theorem shardSum_incrementDespiteCombinerFailure :
    shardSum (Map 5) exFailSummer .sum [] false none exVector =
      (.error (.squashFailed "boom"), [2]) ∧
    ([2] : List Int) ≠ [] :=
  ⟨rfl, by decide⟩

/-! Section: Claim C2: grouping shapes of parent and children -/

theorem mkChildren_shape :
    ∀ (r i : Nat) (rec : ShardSummer → Node → MRes Node) (s : ShardSummer)
      (op : AggOp) (cg : List String) (cw : Bool) (expr : Node)
      (children : List Node) (lg : List Int),
      mkChildren rec s op cg cw expr i r = (.ok children, lg) →
      ∀ c ∈ children, ∃ e2, c = Node.aggregate op cg cw none e2 := by
  intro r
  induction r with
  | zero =>
    intro i rec s op cg cw expr children lg h c hc
    rw [mkChildren_zero_eq] at h
    simp only [Prod.mk.injEq, Except.ok.injEq] at h
    rw [← h.1] at hc
    simp at hc
  | succ r ih =>
    intro i rec s op cg cw expr children lg h c hc
    rw [mkChildren_succ_eq] at h
    cases hclone : CloneNode expr with
    | error er => rw [hclone] at h; simp at h
    | ok cloned =>
      simp only [hclone] at h
      rcases hrec : rec (s.CopyWithCurShard (Int.ofNat i)) cloned with ⟨res1, lg1⟩
      simp only [hrec] at h
      cases res1 with
      | error er => simp at h
      | ok sharded =>
        rcases hrest : mkChildren rec s op cg cw expr (i + 1) r with ⟨res2, lg2⟩
        simp only [hrest] at h
        cases res2 with
        | error er => simp at h
        | ok rest =>
          simp only [Prod.mk.injEq, Except.ok.injEq] at h
          rw [← h.1] at hc
          rcases List.mem_cons.mp hc with rfl | hc2
          · exact ⟨sharded, rfl⟩
          · exact ih (i + 1) rec s op cg cw expr rest lg2 hrest c hc2

/-- Claim C2: a `without(L)` aggregate yields parent
`without(shardLabel)` and children `without(L)`; a `by(L)` aggregate
with nonempty `L` yields parent `by(L)` and children
`by(L ++ [shardLabel])`; an aggregate with no grouping clause yields
parent `without(shardLabel)` and children `by(shardLabel)`. -/
theorem splitSum_grouping (rec : ShardSummer → Node → MRes Node)
    (s : ShardSummer) (op : AggOp) (grouping : List String) (without : Bool)
    (param : Option Node) (expr : Node) (parent : ParentAgg)
    (children : List Node) (lg : List Int)
    (h : splitSum rec s op grouping without param expr =
      (.ok (parent, children), lg)) :
    (without = true →
      parent.grouping = [ShardLabel] ∧ parent.without = true ∧
      ∀ c ∈ children, ∃ e2, c = Node.aggregate op grouping true none e2) ∧
    (without = false → grouping ≠ [] →
      parent.grouping = grouping ∧ parent.without = false ∧
      ∀ c ∈ children, ∃ e2,
        c = Node.aggregate op (grouping ++ [ShardLabel]) false none e2) ∧
    (without = false → grouping = [] →
      parent.grouping = [ShardLabel] ∧ parent.without = true ∧
      ∀ c ∈ children, ∃ e2, c = Node.aggregate op [ShardLabel] false none e2) := by
  rw [splitSum_eq] at h
  rcases hmk : mkChildren rec s op (childShape grouping without).1
      (childShape grouping without).2 expr 0 s.shards.toNat with ⟨res, lgc⟩
  rw [hmk] at h
  cases res with
  | error er => simp at h
  | ok cs =>
    simp only [Prod.mk.injEq, Except.ok.injEq] at h
    have hparent : parent = ⟨op, (parentShape grouping without).1,
        (parentShape grouping without).2, param⟩ := h.1.1.symm
    have hcs : cs = children := h.1.2
    rw [hcs] at hmk
    refine ⟨?_, ?_, ?_⟩
    · rintro rfl
      have hps : parentShape grouping true = ([ShardLabel], true) := by
        simp [parentShape]
      have hchs : childShape grouping true = (grouping, true) := by
        simp [childShape]
      rw [hchs] at hmk
      exact ⟨by rw [hparent, hps], by rw [hparent, hps],
        mkChildren_shape _ _ _ _ _ _ _ _ _ _ hmk⟩
    · rintro rfl hg
      have hlen : 0 < grouping.length := List.length_pos.mpr hg
      have hps : parentShape grouping false = (grouping, false) := by
        simp [parentShape, hlen]
      have hchs : childShape grouping false =
          (grouping ++ [ShardLabel], false) := by
        simp [childShape, hlen]
      rw [hchs] at hmk
      exact ⟨by rw [hparent, hps], by rw [hparent, hps],
        mkChildren_shape _ _ _ _ _ _ _ _ _ _ hmk⟩
    · rintro rfl rfl
      have hps : parentShape [] false = ([ShardLabel], true) := by
        simp [parentShape]
      have hchs : childShape [] false = ([ShardLabel], false) := by
        simp [childShape]
      rw [hchs] at hmk
      exact ⟨by rw [hparent, hps], by rw [hparent, hps],
        mkChildren_shape _ _ _ _ _ _ _ _ _ _ hmk⟩

/-- Witness for C2: the `by(foo)` case at two shards, evaluated on a
concrete split. -/
theorem splitSum_grouping_witness :
    (ParentAgg.mk .sum ["foo"] false none).grouping = ["foo"] ∧
    (ParentAgg.mk .sum ["foo"] false none).without = false :=
  ⟨((splitSum_grouping (Map 5) exOkSummer .sum ["foo"] false none exVector
      ⟨.sum, ["foo"], false, none⟩ [exChildFoo0, exChildFoo1] [2]
      rfl).2.1 rfl (by decide)).1,
   ((splitSum_grouping (Map 5) exOkSummer .sum ["foo"] false none exVector
      ⟨.sum, ["foo"], false, none⟩ [exChildFoo0, exChildFoo1] [2]
      rfl).2.1 rfl (by decide)).2.1⟩

/-! Section: Claim C3: MapNode dispatch on aggregates and other node kinds -/

theorem mapNode_aggregate_eq (rec : ShardSummer → Node → MRes Node)
    (s : ShardSummer) (op : AggOp) (g : List String) (w : Bool)
    (p : Option Node) (e : Node) :
    MapNode rec s (.aggregate op g w p e) =
      if s.canParallelize (.aggregate op g w p e) && (op == AggOp.sum) then
        match shardSum rec s op g w p e with
        | (.error er, lg) => (.error er, lg)
        | (.ok r, lg) => (.ok (r, true), lg)
      else (.ok (.aggregate op g w p e, false), []) := rfl

/-- Claim C3: an aggregate whose operator is sum and which the
parallelizability predicate approves is replaced by the SPLIT result
with `done = true` (errors propagating); every other aggregate is
returned unchanged with `done = false`; every node kind outside
aggregates and selectors is returned unchanged with `done = false`. -/
theorem mapNode_dispatch (rec : ShardSummer → Node → MRes Node)
    (s : ShardSummer) :
    (∀ op g w p e r lg,
      (s.canParallelize (.aggregate op g w p e) && (op == AggOp.sum)) = true →
      shardSum rec s op g w p e = (.ok r, lg) →
      MapNode rec s (.aggregate op g w p e) = (.ok (r, true), lg)) ∧
    (∀ op g w p e er lg,
      (s.canParallelize (.aggregate op g w p e) && (op == AggOp.sum)) = true →
      shardSum rec s op g w p e = (.error er, lg) →
      MapNode rec s (.aggregate op g w p e) = (.error er, lg)) ∧
    (∀ op g w p e,
      (s.canParallelize (.aggregate op g w p e) && (op == AggOp.sum)) = false →
      MapNode rec s (.aggregate op g w p e) =
        (.ok (.aggregate op g w p e, false), [])) ∧
    (∀ bop l r, MapNode rec s (.binary bop l r) =
      (.ok (.binary bop l r, false), [])) ∧
    (∀ v, MapNode rec s (.number v) = (.ok (.number v, false), [])) ∧
    MapNode rec s .unknown = (.ok (.unknown, false), []) := by
  refine ⟨?_, ?_, ?_, fun _ _ _ => rfl, fun _ => rfl, rfl⟩
  · intro op g w p e r lg hc hs2
    simp only [mapNode_aggregate_eq, hc, if_true, hs2]
  · intro op g w p e er lg hc hs2
    simp only [mapNode_aggregate_eq, hc, if_true, hs2]
  · intro op g w p e hc
    simp only [mapNode_aggregate_eq, hc, Bool.false_eq_true, if_false]

/-- Witness for C3: a sum rejected by the predicate passes through with
`done = false`. -/
theorem mapNode_dispatch_witness :
    MapNode (Map 5) exRejectSummer (.aggregate .sum [] false none exVector) =
      (.ok (.aggregate .sum [] false none exVector, false), []) :=
  (mapNode_dispatch (Map 5) exRejectSummer).2.2.1 .sum [] false none
    exVector rfl

/-! Section: Claim C4: MapNode on vector selectors -/

theorem mapNode_vector_eq (rec : ShardSummer → Node → MRes Node)
    (s : ShardSummer) (name : String) (off : Int) (ms : List Matcher)
    (pr : PosRange) :
    MapNode rec s (.vector name off ms pr) =
      match s.currentShard with
      | some cur =>
        (match shardVectorSelector cur s.shards name off ms pr with
         | .error er => (.error er, [])
         | .ok m => (.ok (m, true), []))
      | none => (.ok (.vector name off ms pr, true), []) := rfl

/-- Claim C4: with `currentShard` bound to `i`, a vector selector is
rewritten to a new selector with identical name and offset and the
shard matcher (equality on the reserved label against the encoding of
`i` out of the configured shard count) prepended to the original
matchers, with `done = true`; with `currentShard` unset it is returned
unchanged with `done = true`. -/
theorem mapNode_vectorSelector (rec : ShardSummer → Node → MRes Node)
    (s : ShardSummer) (name : String) (off : Int) (ms : List Matcher)
    (pr : PosRange) :
    (∀ i : Int, s.currentShard = some i →
      MapNode rec s (.vector name off ms pr) =
        (.ok (.vector name off
          (⟨.matchEqual, ShardLabel, shardLabelValue i s.shards⟩ :: ms)
          ⟨0, 0⟩, true), [])) ∧
    (s.currentShard = none →
      MapNode rec s (.vector name off ms pr) =
        (.ok (.vector name off ms pr, true), [])) := by
  constructor
  · intro i hi
    simp only [mapNode_vector_eq, hi]
    rfl
  · intro hn
    simp only [mapNode_vector_eq, hn]

/-- Witness for C4: both branches at concrete inputs. -/
theorem mapNode_vectorSelector_witness :
    MapNode (Map 5) (exOkSummer.CopyWithCurShard 1)
        (.vector "foo" 0 [] ⟨3, 7⟩) =
      (.ok (.vector "foo" 0 [⟨.matchEqual, ShardLabel, "1_of_2"⟩]
        ⟨0, 0⟩, true), []) ∧
    MapNode (Map 5) exOkSummer (.vector "foo" 0 [] ⟨3, 7⟩) =
      (.ok (.vector "foo" 0 [] ⟨3, 7⟩, true), []) :=
  ⟨(mapNode_vectorSelector (Map 5) (exOkSummer.CopyWithCurShard 1)
      "foo" 0 [] ⟨3, 7⟩).1 1 rfl,
   (mapNode_vectorSelector (Map 5) exOkSummer "foo" 0 [] ⟨3, 7⟩).2 rfl⟩

/-! Section: Claim C5: the matrix selector sharder -/

/-- Claim C5: a matrix selector whose inner selector is a plain vector
selector is rebuilt with the shard matcher prepended and range and
position metadata preserved verbatim; any other inner selector kind
fails with the invalid-selector-type error. -/
theorem shardMatrixSelector_cases (curshard shards range endPos : Int) :
    (∀ name off ms pr,
      shardMatrixSelector curshard shards (.vector name off ms pr)
          range endPos =
        .ok (.matrix (.vector name off
          (⟨.matchEqual, ShardLabel, shardLabelValue curshard shards⟩ :: ms)
          pr) range endPos)) ∧
    (∀ inner : Node, (∀ name off ms pr, inner ≠ .vector name off ms pr) →
      shardMatrixSelector curshard shards inner range endPos =
        .error .invalidSelectorType) := by
  constructor
  · intro name off ms pr
    rfl
  · intro inner h
    cases inner with
    | vector name off ms pr => exact absurd rfl (h name off ms pr)
    | aggregate op g w p e => rfl
    | matrix v r ep => rfl
    | binary op l r => rfl
    | number v => rfl
    | unknown => rfl

/-- Witness for C5: a matrix selector wrapping a number literal is
rejected. -/
theorem shardMatrixSelector_cases_witness :
    shardMatrixSelector 0 2 (.number 3) 5 9 = .error .invalidSelectorType :=
  (shardMatrixSelector_cases 0 2 5 9).2 (.number 3)
    (fun _ _ _ _ h => Node.noConfusion h)

/-! Section: Claim C9: position metadata frame conditions -/

/-- Claim C9: rewriting a plain vector selector with a bound shard does
not carry over the original position range (the new selector holds the
zero value), whereas the same rewrite through a matrix selector
preserves the position range of the inner selector and the end
position. -/
theorem selector_posRange_frame (curshard shards : Int) (name : String)
    (off : Int) (ms : List Matcher) :
    (∀ pr : PosRange,
      shardVectorSelector curshard shards name off ms pr =
        .ok (.vector name off
          (⟨.matchEqual, ShardLabel, shardLabelValue curshard shards⟩ :: ms)
          ⟨0, 0⟩)) ∧
    (∀ (pr : PosRange) (range endPos : Int),
      shardMatrixSelector curshard shards (.vector name off ms pr)
          range endPos =
        .ok (.matrix (.vector name off
          (⟨.matchEqual, ShardLabel, shardLabelValue curshard shards⟩ :: ms)
          pr) range endPos)) :=
  ⟨fun _ => rfl, fun _ _ _ => rfl⟩

/-! Section: Claim C10: construction never validates the shard count -/

/-- Claim C10: `NewShardSummer` succeeds for every shard count whenever
a squasher is supplied, and a missing squasher is the only constructor
failure; with a non-positive shard count a SPLIT builds an empty leg
list, hands the combiner zero legs, and logs the non-positive shard
count as the counter increment. -/
theorem newShardSummer_shardCount (shards : Int)
    (sq : List Node → Except Err Node) (cp : Node → Bool)
    (rec : ShardSummer → Node → MRes Node) (op : AggOp) (g : List String)
    (w : Bool) (p : Option Node) (e : Node) :
    NewShardSummer shards (some sq) cp =
      .ok { shards := shards, currentShard := none, squash := sq,
            canParallelize := cp } ∧
    NewShardSummer shards none cp = .error .squasherRequired ∧
    (∀ s : ShardSummer, s.shards = shards → shards ≤ 0 →
      splitSum rec s op g w p e =
        (.ok (⟨op, (parentShape g w).1, (parentShape g w).2, p⟩, []),
          [shards]) ∧
      (∀ c, s.squash [] = .ok c →
        shardSum rec s op g w p e =
          (.ok (.aggregate op (parentShape g w).1 (parentShape g w).2 p c),
            [shards])) ∧
      (∀ er, s.squash [] = .error er →
        shardSum rec s op g w p e = (.error er, [shards]))) := by
  refine ⟨rfl, rfl, ?_⟩
  intro s hsh hle
  have htn : s.shards.toNat = 0 := by
    rw [hsh]
    omega
  have hsplit : splitSum rec s op g w p e =
      (.ok (⟨op, (parentShape g w).1, (parentShape g w).2, p⟩, []),
        [s.shards]) := by
    rw [splitSum_eq, htn, mkChildren_zero_eq]
    rfl
  rw [hsh] at hsplit
  refine ⟨hsplit, ?_, ?_⟩
  · intro c hc
    simp only [shardSum_eq, hsplit, hc]
  · intro er he
    simp only [shardSum_eq, hsplit, he]

/-- Witness for C10 at shard count `-1`. -/
theorem newShardSummer_shardCount_witness :
    splitSum (Map 5) exNegSummer .sum [] false none exVector =
      (.ok (⟨.sum, [ShardLabel], true, none⟩, []), [-1]) :=
  ((newShardSummer_shardCount (-1) orSquash (fun _ => true) (Map 5) .sum []
    false none exVector).2.2 exNegSummer rfl (by decide)).1

/-! Section: adequacy of the regular-expression model -/

theorem all_takeWhile {p : Char → Bool} : ∀ l : List Char,
    (l.takeWhile p).all p = true := by
  intro l
  induction l with
  | nil => rfl
  | cons a l ih =>
    by_cases h : p a = true
    · simp [List.takeWhile_cons, h, ih]
    · simp [List.takeWhile_cons, h]

/-- The matcher `reList` accepts exactly the strings of the anchored
regular expression `^[0-9]+_of_[0-9]+$`: a nonempty digit run, the
literal infix, and a nonempty digit run. -/
theorem reList_iff (l : List Char) :
    reList l = true ↔
      ∃ d1 d2 : List Char, d1 ≠ [] ∧ d1.all Char.isDigit = true ∧
        d2 ≠ [] ∧ d2.all Char.isDigit = true ∧
        l = d1 ++ '_' :: 'o' :: 'f' :: '_' :: d2 := by
  constructor
  · intro h
    unfold reList at h
    rcases hd : l.dropWhile Char.isDigit with
      _ | ⟨u1, _ | ⟨c2, _ | ⟨c3, _ | ⟨u4, rest⟩⟩⟩⟩ <;> rw [hd] at h
    · simp at h
    · simp at h
    · simp at h
    · simp at h
    · simp only [Bool.and_eq_true, beq_iff_eq] at h
      obtain ⟨⟨⟨⟨⟨⟨hu1, hc2⟩, hc3⟩, hu4⟩, ht⟩, hr⟩, hall⟩ := h
      subst hu1; subst hc2; subst hc3; subst hu4
      have htn : l.takeWhile Char.isDigit ≠ [] := by
        intro hnil
        rw [hnil] at ht
        simp at ht
      have hrn : rest ≠ [] := by
        intro hnil
        rw [hnil] at hr
        simp at hr
      refine ⟨l.takeWhile Char.isDigit, rest, htn, all_takeWhile l, hrn,
        hall, ?_⟩
      rw [← List.takeWhile_append_dropWhile (p := Char.isDigit) (l := l), hd]
      have hta : ∀ c ∈ l.takeWhile Char.isDigit, Char.isDigit c = true := by
        rw [← List.all_eq_true]
        exact all_takeWhile l
      rw [takeWhile_append_all hta]
      simp [List.takeWhile_cons]
  · rintro ⟨d1, d2, h1n, h1, h2n, h2, rfl⟩
    exact reList_assembled h1 h1n h2 h2n
